import Mathlib

/-!
Shallow embedding of `src/main.py` from the repository `gsheet_to_GBQ`:
an incremental Google-Sheet → Cloud-Storage → BigQuery sync job.

Modelling conventions:
* Python strings are `List Char` (the type `Str` below).
* The three external services (Sheets API, Cloud Storage, BigQuery) are
  modelled by an `Env` record recording whether each external call succeeds;
  the watermark blob's content is threaded explicitly as `Option Str`
  (`none` = the blob does not exist).
* A Python call that may raise is modelled by `PyResult`; an exception that
  escapes the handler is recorded in the run result's `raised` field.
* `json.loads` is modelled by a recursive-descent parser `json_loads` over
  the JSON fragment relevant to the store: objects, arrays, strings without
  escape sequences, integers, `true`/`false`/`null`.  (Floats and string
  escapes are outside the modelled fragment; the store itself only ever
  writes a single integer field.)
-/

abbrev Str := List Char

/-- Python exceptions relevant to the handler. -/
inductive PyErr where
  | apiError
  | attributeError
  | typeError
deriving DecidableEq

/-- Result of a Python expression: a value, or a raised exception. -/
inductive PyResult (α : Type) where
  | ok (a : α)
  | exn (e : PyErr)
deriving DecidableEq

/- Characters that the lexical rules of this file keep out of literals. -/
def lbraceC : Char := Char.ofNat 123
def rbraceC : Char := Char.ofNat 125
def lbrackC : Char := Char.ofNat 91
def rbrackC : Char := Char.ofNat 93
def dquoteC : Char := Char.ofNat 34
def colonC : Char := Char.ofNat 58
def commaC : Char := Char.ofNat 44
def spaceC : Char := Char.ofNat 32
def minusC : Char := Char.ofNat 45

def isDigitC (c : Char) : Bool := 48 ≤ c.toNat && c.toNat ≤ 57

def isWsC (c : Char) : Bool :=
  c.toNat = 32 || c.toNat = 9 || c.toNat = 10 || c.toNat = 13 ||
  c.toNat = 11 || c.toNat = 12

/-- JSON values (the fragment used by the watermark store). -/
inductive Json where
  | null
  | jbool (b : Bool)
  | num (n : Int)
  | str (s : Str)
  | arr (elems : List Json)
  | obj (members : List (Str × Json))

/- ------------------------------------------------------------------ -/
/- Decimal printing (model of Python `json.dumps` for integers).       -/
/- ------------------------------------------------------------------ -/

def digitChar (d : Nat) : Char := Char.ofNat (48 + d)

/-- Fuel-driven digit accumulator; `natRepr` supplies adequate fuel. -/
def natReprAux : Nat → Nat → Str → Str
  | 0, _, acc => acc
  | fuel + 1, n, acc =>
      if n < 10 then digitChar (n % 10) :: acc
      else natReprAux fuel (n / 10) (digitChar (n % 10) :: acc)

def natRepr (n : Nat) : Str := natReprAux (n + 1) n []

/-- Decimal digits of `n`, most significant first (proof-side view). -/
def natDigitsSpec (n : Nat) : Str :=
  if _h : n < 10 then [digitChar (n % 10)]
  else natDigitsSpec (n / 10) ++ [digitChar (n % 10)]
decreasing_by exact Nat.div_lt_self (by omega) (by omega)

def intRepr (v : Int) : Str :=
  if v < 0 then minusC :: natRepr v.natAbs else natRepr v.toNat

/- ------------------------------------------------------------------ -/
/- JSON parsing (model of Python `json.loads`).                        -/
/- ------------------------------------------------------------------ -/

def skipWs (cs : Str) : Str := cs.dropWhile isWsC

def digitsVal (ds : Str) : Nat := ds.foldl (fun a c => a * 10 + (c.toNat - 48)) 0

def parseNat (cs : Str) : Option (Nat × Str) :=
  let ds := cs.takeWhile isDigitC
  if ds.isEmpty then none else some (digitsVal ds, cs.dropWhile isDigitC)

def parseInt (cs : Str) : Option (Int × Str) :=
  match cs with
  | [] => none
  | c :: rest =>
      if c = minusC then (parseNat rest).map (fun p => (-(p.1 : Int), p.2))
      else (parseNat (c :: rest)).map (fun p => ((p.1 : Int), p.2))

/-- Parse a string body after the opening quote, up to the closing quote. -/
def parseStringRest (cs : Str) : Option (Str × Str) :=
  match cs.dropWhile (fun c => c ≠ dquoteC) with
  | _ :: rest => some (cs.takeWhile (fun c => c ≠ dquoteC), rest)
  | [] => none

def nullLit : Str := ['n', 'u', 'l', 'l']
def trueLit : Str := ['t', 'r', 'u', 'e']
def falseLit : Str := ['f', 'a', 'l', 's', 'e']

mutual

def parseValue : Nat → Str → Option (Json × Str)
  | 0, _ => none
  | fuel + 1, cs =>
      match skipWs cs with
      | [] => none
      | c :: rest =>
          if c = lbraceC then
            match skipWs rest with
            | [] => none
            | c2 :: r2 =>
                if c2 = rbraceC then some (Json.obj [], r2)
                else (parseMembers fuel (c2 :: r2)).map (fun p => (Json.obj p.1, p.2))
          else if c = lbrackC then
            match skipWs rest with
            | [] => none
            | c2 :: r2 =>
                if c2 = rbrackC then some (Json.arr [], r2)
                else (parseElems fuel (c2 :: r2)).map (fun p => (Json.arr p.1, p.2))
          else if c = dquoteC then
            (parseStringRest rest).map (fun p => (Json.str p.1, p.2))
          else if isDigitC c || c = minusC then
            (parseInt (c :: rest)).map (fun p => (Json.num p.1, p.2))
          else if (c :: rest).take 4 = nullLit then some (Json.null, (c :: rest).drop 4)
          else if (c :: rest).take 4 = trueLit then some (Json.jbool true, (c :: rest).drop 4)
          else if (c :: rest).take 5 = falseLit then some (Json.jbool false, (c :: rest).drop 5)
          else none

def parseMembers : Nat → Str → Option (List (Str × Json) × Str)
  | 0, _ => none
  | fuel + 1, cs =>
      match skipWs cs with
      | [] => none
      | c :: rest =>
          if c = dquoteC then
            match parseStringRest rest with
            | none => none
            | some (key, r1) =>
                match skipWs r1 with
                | [] => none
                | c2 :: r2 =>
                    if c2 = colonC then
                      match parseValue fuel r2 with
                      | none => none
                      | some (v, r3) =>
                          match skipWs r3 with
                          | [] => none
                          | c3 :: r4 =>
                              if c3 = commaC then
                                match parseMembers fuel r4 with
                                | some (ms, r5) => some ((key, v) :: ms, r5)
                                | none => none
                              else if c3 = rbraceC then some ([(key, v)], r4)
                              else none
                    else none
          else none

def parseElems : Nat → Str → Option (List Json × Str)
  | 0, _ => none
  | fuel + 1, cs =>
      match parseValue fuel cs with
      | none => none
      | some (v, r1) =>
          match skipWs r1 with
          | [] => none
          | c :: r2 =>
              if c = commaC then (parseElems fuel r2).map (fun p => (v :: p.1, p.2))
              else if c = rbrackC then some ([v], r2)
              else none

end

def json_loads (s : Str) : Option Json :=
  match parseValue (s.length + 1) s with
  | some (v, rest) => if (skipWs rest).isEmpty then some v else none
  | none => none

/- ------------------------------------------------------------------ -/
/- Watermark store (`get_last_processed_row` / `update_last_processed_row`). -/
/- ------------------------------------------------------------------ -/

def WATERMARK_FIELD : Str := "last_processed_row".data

/-- Python dict lookup built from a member list: a duplicate key keeps the
last occurrence, as `json.loads` does. -/
def lookupLast (kvs : List (Str × Json)) (k : Str) : Option Json :=
  kvs.foldl (fun acc p => if p.1 = k then some p.2 else acc) none

/-- `get_last_processed_row` (src/main.py lines 20–31).  `readOk` models
whether the Cloud-Storage calls (`blob.exists`, `download_as_text`) succeed;
when they raise, the exception is uncaught.  A blob that fails to parse is
caught (`json.JSONDecodeError`) and treated as 0; a blob whose JSON value is
not an object makes `.get` raise `AttributeError`, which is not caught. -/
def get_last_processed_row (readOk : Bool) (blob : Option Str) : PyResult Json :=
  if readOk then
    match blob with
    | none => .ok (.num 0)
    | some s =>
        match json_loads s with
        | none => .ok (.num 0)
        | some (Json.obj kvs) => .ok ((lookupLast kvs WATERMARK_FIELD).getD (Json.num 0))
        | some _ => .exn .attributeError
  else .exn .apiError

/-- Blob content written by `update_last_processed_row` (lines 34–38):
`json.dumps({"last_processed_row": row_count})`. -/
def update_last_processed_row (row_count : Int) : Str :=
  lbraceC :: dquoteC ::
    (WATERMARK_FIELD ++ dquoteC :: colonC :: spaceC :: (intRepr row_count ++ [rbraceC]))

/- ------------------------------------------------------------------ -/
/- Dataframe, column cleaning, numeric coercion.                       -/
/- ------------------------------------------------------------------ -/

/-- A scalar cell of the sheet (strings and integers; the sheet's numeric
cells are what pandas types as `int64`). -/
inductive Cell where
  | str (s : Str)
  | intv (n : Int)
deriving DecidableEq

/-- A pandas dataframe: column names plus rows of cells. -/
structure DF where
  cols : List Str
  rows : List (List Cell)
deriving DecidableEq

def pyStrip (s : Str) : Str := ((s.dropWhile isWsC).reverse.dropWhile isWsC).reverse

/-- ASCII `str.lower` on one character. -/
def pyLowerChar (c : Char) : Char :=
  if 65 ≤ c.toNat && c.toNat ≤ 90 then Char.ofNat (c.toNat + 32) else c

/-- The character class `[a-zA-Z0-9_]` of the first `re.sub`. -/
def isWordChar (c : Char) : Bool :=
  (97 ≤ c.toNat && c.toNat ≤ 122) || (65 ≤ c.toNat && c.toNat ≤ 90) ||
  (48 ≤ c.toNat && c.toNat ≤ 57) || c = '_'

/-- Fuel-driven model of `re.sub(r"_+", "_", s)`: collapse each maximal run
of underscores to one underscore.  `collapseU` supplies adequate fuel. -/
def collapseUAux : Nat → Str → Str
  | 0, _ => []
  | _ + 1, [] => []
  | fuel + 1, c :: rest =>
      if c = '_' then c :: collapseUAux fuel (rest.dropWhile (fun x => x = '_'))
      else c :: collapseUAux fuel rest

def collapseU (s : Str) : Str := collapseUAux s.length s

/-- `clean_column_name` (src/main.py lines 71–75):
strip, lowercase, replace every char outside `[a-zA-Z0-9_]` by `_`,
then collapse runs of `_`. -/
def clean_column_name (name : Str) : Str :=
  collapseU (((pyStrip name).map pyLowerChar).map (fun c => if isWordChar c then c else '_'))

/-- Line 77: `df.columns = [clean_column_name(col) for col in df.columns]`. -/
def cleanColumns (df : DF) : DF := ⟨df.cols.map clean_column_name, df.rows⟩

def cellIsInt : Cell → Bool
  | .intv _ => true
  | .str _ => false

def cellToStr : Cell → Cell
  | .intv n => .str (intRepr n)
  | .str s => .str s

def colCells (df : DF) (j : Nat) : List Cell := df.rows.filterMap (fun r => r.get? j)

/-- Lines 80–82: a column whose dtype pandas infers as numeric (all
cells integers, column nonempty) is converted to string via `astype(str)`. -/
def coerceNumericCols (df : DF) : DF :=
  ⟨df.cols,
   df.rows.map (fun r =>
     r.mapIdx (fun j c =>
       if !(colCells df j).isEmpty && (colCells df j).all cellIsInt then cellToStr c else c))⟩

/- ------------------------------------------------------------------ -/
/- Delta extraction.                                                   -/
/- ------------------------------------------------------------------ -/

/-- Python `xs[k:]` for an integer `k` (negative indices count from the
end, clamped at 0), which is also `df.iloc[k:]` for integer `k`. -/
def pySliceFrom {α : Type} (xs : List α) (k : Int) : List α :=
  if k < 0 then xs.drop (((xs.length : Int) + k).toNat) else xs.drop k.toNat

/-- Lines 89–93: `df.iloc[last_processed_row:]` when
`len(df) > last_processed_row`, otherwise nothing new (empty delta). -/
def extractDelta {α : Type} (rows : List α) (w : Int) : List α :=
  if w < (rows.length : Int) then pySliceFrom rows w else []

/- ------------------------------------------------------------------ -/
/- The orchestrator (`hello_pubsub`).                                  -/
/- ------------------------------------------------------------------ -/

/-- Externally observable steps of one run, in execution order. -/
inductive Event where
  | fetched (n : Nat)
  | wmLoaded
  | wmSaved (n : Int)
  | serialized
  | uploaded
  | loadSubmitted
  | loadCompleted
deriving DecidableEq

def Event.isWmSave : Event → Bool
  | .wmSaved _ => true
  | _ => false

/-- Steps that create, upload or load the artifact. -/
def Event.isArtifactStep : Event → Bool
  | .serialized => true
  | .uploaded => true
  | .loadSubmitted => true
  | .loadCompleted => true
  | _ => false

/-- One run's environment: the sheet fetch outcome (`none` = the
`try` block around the Sheets calls raises) and success of each
subsequent external call. -/
structure Env where
  fetch : Option DF
  blob0 : Option Str
  wmReadOk : Bool
  wmWriteOk : Bool
  localWriteOk : Bool
  uploadOk : Bool
  loadOk : Bool
deriving DecidableEq

/-- Observable outcome of one run: ordered event trace, final watermark
blob, artifacts uploaded to Cloud Storage, datasets submitted as BigQuery
load jobs, and the exception (if any) escaping `hello_pubsub`. -/
structure RunResult where
  events : List Event
  blob : Option Str
  uploads : List DF
  loadJobs : List DF
  raised : Option PyErr
deriving DecidableEq

/-- `hello_pubsub` (src/main.py lines 42–154).  The watermark read
(line 86) and write (line 99) sit outside every `try` block, so their
failures raise out of the handler; the sheet fetch, the local parquet
write, the upload and the load job are each wrapped in `try/except` that
logs and returns.  A non-integer loaded watermark raises `TypeError`
either at the `len(df) > w` comparison (str/list/dict/None) or at
`df.iloc[w:]` (bool), matching CPython/pandas. -/
def hello_pubsub (env : Env) : RunResult :=
  match env.fetch with
  | none => ⟨[], env.blob0, [], [], none⟩
  | some df =>
      if df.rows.isEmpty then ⟨[.fetched 0], env.blob0, [], [], none⟩
      else
        let df1 := coerceNumericCols (cleanColumns df)
        let n := df1.rows.length
        match get_last_processed_row env.wmReadOk env.blob0 with
        | .exn e => ⟨[.fetched n, .wmLoaded], env.blob0, [], [], some e⟩
        | .ok w =>
            match w with
            | .num wn =>
                if wn < (n : Int) then
                  let df_new : DF := ⟨df1.cols, extractDelta df1.rows wn⟩
                  if env.wmWriteOk then
                    let blob1 := some (update_last_processed_row (n : Int))
                    if env.localWriteOk then
                      if env.uploadOk then
                        if env.loadOk then
                          ⟨[.fetched n, .wmLoaded, .wmSaved (n : Int), .serialized,
                            .uploaded, .loadSubmitted, .loadCompleted],
                           blob1, [df_new], [df_new], none⟩
                        else
                          ⟨[.fetched n, .wmLoaded, .wmSaved (n : Int), .serialized,
                            .uploaded, .loadSubmitted],
                           blob1, [df_new], [df_new], none⟩
                      else
                        ⟨[.fetched n, .wmLoaded, .wmSaved (n : Int), .serialized],
                         blob1, [], [], none⟩
                    else
                      ⟨[.fetched n, .wmLoaded, .wmSaved (n : Int)], blob1, [], [], none⟩
                  else ⟨[.fetched n, .wmLoaded], env.blob0, [], [], some .apiError⟩
                else ⟨[.fetched n, .wmLoaded], env.blob0, [], [], none⟩
            | .jbool b =>
                if (if b then (1 : Int) else 0) < (n : Int) then
                  ⟨[.fetched n, .wmLoaded], env.blob0, [], [], some .typeError⟩
                else ⟨[.fetched n, .wmLoaded], env.blob0, [], [], none⟩
            | _ => ⟨[.fetched n, .wmLoaded], env.blob0, [], [], some .typeError⟩

/-- Replacing the initial watermark blob of an environment (used to thread
the blob through a sequence of runs). -/
def Env.withBlob (e : Env) (b : Option Str) : Env :=
  ⟨e.fetch, b, e.wmReadOk, e.wmWriteOk, e.localWriteOk, e.uploadOk, e.loadOk⟩

/-- The watermark blob after a sequence of runs, each run taking the blob
the previous run left behind (single writer). -/
def runChain (blob : Option Str) : List Env → Option Str
  | [] => blob
  | e :: es => runChain (hello_pubsub (e.withBlob blob)).blob es

/- ------------------------------------------------------------------ -/
/- General list and character lemmas.                                  -/
/- ------------------------------------------------------------------ -/

theorem takeWhile_append_all {α : Type} {p : α → Bool} {xs ys : List α}
    (h : ∀ x ∈ xs, p x = true) :
    (xs ++ ys).takeWhile p = xs ++ ys.takeWhile p := by
  induction xs with
  | nil => simp
  | cons a l ih =>
      have ha : p a = true := h a (by simp)
      have hl : ∀ x ∈ l, p x = true := fun x hx => h x (by simp [hx])
      simp [List.takeWhile_cons, ha, ih hl]

theorem dropWhile_append_all {α : Type} {p : α → Bool} {xs ys : List α}
    (h : ∀ x ∈ xs, p x = true) :
    (xs ++ ys).dropWhile p = ys.dropWhile p := by
  induction xs with
  | nil => simp
  | cons a l ih =>
      have ha : p a = true := h a (by simp)
      have hl : ∀ x ∈ l, p x = true := fun x hx => h x (by simp [hx])
      simp [List.dropWhile_cons, ha, ih hl]

theorem length_dropWhile_le' {α : Type} (p : α → Bool) (l : List α) :
    (l.dropWhile p).length ≤ l.length := by
  induction l with
  | nil => simp
  | cons a t ih =>
      cases hp : p a
      · simp [List.dropWhile_cons, hp]
      · simp only [List.dropWhile_cons, hp, if_true]
        simp only [List.length_cons]
        omega

theorem mem_of_mem_dropWhile {α : Type} {p : α → Bool} {l : List α} {x : α}
    (h : x ∈ l.dropWhile p) : x ∈ l := by
  induction l with
  | nil => simp at h
  | cons a t ih =>
      cases hp : p a
      · simp only [List.dropWhile_cons, hp, if_false] at h
        exact h
      · simp only [List.dropWhile_cons, hp, if_true] at h
        exact List.mem_cons_of_mem a (ih h)

theorem head_dropWhile_not {α : Type} (p : α → Bool) {l : List α} {y : α} {t : List α}
    (h : l.dropWhile p = y :: t) : p y = false := by
  induction l with
  | nil => simp at h
  | cons a s ih =>
      cases hp : p a
      · rw [List.dropWhile_cons, hp] at h
        simp at h
        rw [← h.1]
        exact hp
      · simp only [List.dropWhile_cons, hp, if_true] at h
        exact ih h

theorem toNat_ofNat_valid (n : Nat) (h : n < 55296) : (Char.ofNat n).toNat = n := by
  have hv : n.isValidChar := Or.inl h
  simp only [Char.ofNat, hv, dif_pos]
  rfl

theorem char_eq_iff_toNat {c d : Char} : c = d ↔ c.toNat = d.toNat := by
  constructor
  · intro h; rw [h]
  · intro h
    cases c; cases d
    simp only [Char.toNat] at h
    congr 1
    exact UInt32.ext h

/- ------------------------------------------------------------------ -/
/- Digits: printing and reparsing.                                     -/
/- ------------------------------------------------------------------ -/

theorem digitChar_toNat (d : Nat) (h : d < 10) : (digitChar d).toNat = 48 + d := by
  unfold digitChar
  exact toNat_ofNat_valid _ (by omega)

theorem isDigitC_digitChar (d : Nat) (h : d < 10) : isDigitC (digitChar d) = true := by
  simp only [isDigitC, digitChar_toNat d h, Bool.and_eq_true, decide_eq_true_eq]
  omega

theorem natDigitsSpec_ne_nil (n : Nat) : natDigitsSpec n ≠ [] := by
  rw [natDigitsSpec]
  split <;> simp

theorem mem_natDigitsSpec_isDigit (n : Nat) :
    ∀ c ∈ natDigitsSpec n, isDigitC c = true := by
  induction n using Nat.strong_induction_on with
  | _ n ih =>
      intro c hc
      rw [natDigitsSpec] at hc
      split at hc
      · simp only [List.mem_singleton] at hc
        rw [hc]
        exact isDigitC_digitChar _ (Nat.mod_lt _ (by omega))
      · rename_i hten
        rcases List.mem_append.mp hc with h1 | h2
        · exact ih (n / 10) (Nat.div_lt_self (by omega) (by omega)) c h1
        · simp only [List.mem_singleton] at h2
          rw [h2]
          exact isDigitC_digitChar _ (Nat.mod_lt _ (by omega))

theorem digitsVal_append_singleton (ds : Str) (d : Char) :
    digitsVal (ds ++ [d]) = digitsVal ds * 10 + (d.toNat - 48) := by
  simp [digitsVal, List.foldl_append]

theorem digitsVal_natDigitsSpec (n : Nat) : digitsVal (natDigitsSpec n) = n := by
  induction n using Nat.strong_induction_on with
  | _ n ih =>
      rw [natDigitsSpec]
      split
      · rename_i hten
        simp only [digitsVal, List.foldl_cons, List.foldl_nil]
        rw [digitChar_toNat _ (Nat.mod_lt _ (by omega))]
        omega
      · rename_i hten
        rw [digitsVal_append_singleton, ih (n / 10) (Nat.div_lt_self (by omega) (by omega)),
            digitChar_toNat _ (Nat.mod_lt _ (by omega))]
        omega

theorem natReprAux_spec (f : Nat) : ∀ (n : Nat) (acc : Str), n < 10 ^ (f + 1) →
    natReprAux (f + 1) n acc = natDigitsSpec n ++ acc := by
  induction f with
  | zero =>
      intro n acc h
      have hn : n < 10 := by simpa using h
      rw [natReprAux, natDigitsSpec]
      simp [hn]
  | succ f ih =>
      intro n acc h
      by_cases hn : n < 10
      · rw [natReprAux, natDigitsSpec]
        simp [hn]
      · have hdiv : n / 10 < 10 ^ (f + 1) := by
          have : n < 10 ^ (f + 1) * 10 := by
            calc n < 10 ^ (f + 1 + 1) := h
            _ = 10 ^ (f + 1) * 10 := by ring
          omega
        rw [natReprAux]
        simp only [hn, if_false]
        rw [ih (n / 10) (digitChar (n % 10) :: acc) hdiv]
        conv_rhs => rw [natDigitsSpec]
        simp [hn, List.append_assoc]

theorem natRepr_eq_spec (n : Nat) : natRepr n = natDigitsSpec n := by
  have h : n < 10 ^ (n + 1) := by
    calc n < 10 ^ n := Nat.lt_pow_self (by omega) n
    _ ≤ 10 ^ (n + 1) := Nat.pow_le_pow_right (by omega) (by omega)
  unfold natRepr
  rw [natReprAux_spec n n [] h]
  simp

theorem natRepr_ne_nil (n : Nat) : natRepr n ≠ [] := by
  rw [natRepr_eq_spec]
  exact natDigitsSpec_ne_nil n

theorem mem_natRepr_isDigit (n : Nat) : ∀ c ∈ natRepr n, isDigitC c = true := by
  rw [natRepr_eq_spec]
  exact mem_natDigitsSpec_isDigit n

theorem digitsVal_natRepr (n : Nat) : digitsVal (natRepr n) = n := by
  rw [natRepr_eq_spec]
  exact digitsVal_natDigitsSpec n

theorem parseNat_repr (n : Nat) (rest : Str)
    (h1 : rest.takeWhile isDigitC = []) (h2 : rest.dropWhile isDigitC = rest) :
    parseNat (natRepr n ++ rest) = some (n, rest) := by
  unfold parseNat
  rw [takeWhile_append_all (mem_natRepr_isDigit n),
      dropWhile_append_all (mem_natRepr_isDigit n), h1, h2]
  simp [natRepr_ne_nil n, List.isEmpty_iff, digitsVal_natRepr n]

theorem isDigitC_toNat {c : Char} (h : isDigitC c = true) :
    48 ≤ c.toNat ∧ c.toNat ≤ 57 := by
  simpa [isDigitC, Bool.and_eq_true, decide_eq_true_eq] using h

theorem isWsC_false_of_toNat {c : Char} (h : 33 ≤ c.toNat) : isWsC c = false := by
  simp only [isWsC, Bool.or_eq_false_iff, decide_eq_false_iff_not]
  omega

theorem skipWs_cons_of_not_ws {c : Char} {t : Str} (h : isWsC c = false) :
    skipWs (c :: t) = c :: t := by
  simp [skipWs, List.dropWhile_cons, h]

theorem intRepr_head (v : Int) :
    ∃ d t, intRepr v = d :: t ∧ 45 ≤ d.toNat ∧ d.toNat ≤ 57 ∧
      (isDigitC d = true ∨ d = minusC) := by
  unfold intRepr
  by_cases hv : v < 0
  · refine ⟨minusC, natRepr v.natAbs, by simp [hv], ?_, ?_, Or.inr rfl⟩
    · have : minusC.toNat = 45 := by decide
      omega
    · have : minusC.toNat = 45 := by decide
      omega
  · obtain ⟨d, ds, hds⟩ : ∃ d ds, natRepr v.toNat = d :: ds := by
      cases h : natRepr v.toNat with
      | nil => exact absurd h (natRepr_ne_nil _)
      | cons d ds => exact ⟨d, ds, rfl⟩
    have hd : isDigitC d = true := mem_natRepr_isDigit v.toNat d (by rw [hds]; simp)
    have hdn := isDigitC_toNat hd
    exact ⟨d, ds, by simp [hv, hds], by omega, by omega, Or.inl hd⟩

theorem parseInt_repr (v : Int) (rest : Str)
    (h1 : rest.takeWhile isDigitC = []) (h2 : rest.dropWhile isDigitC = rest) :
    parseInt (intRepr v ++ rest) = some (v, rest) := by
  by_cases hv : v < 0
  · unfold intRepr
    rw [if_pos hv, List.cons_append]
    simp only [parseInt, if_true]
    rw [parseNat_repr v.natAbs rest h1 h2]
    simp only [Option.map_some']
    have hcast : -((v.natAbs : Nat) : Int) = v := by omega
    rw [hcast]
  · obtain ⟨d, ds, hds⟩ : ∃ d ds, natRepr v.toNat = d :: ds := by
      cases h : natRepr v.toNat with
      | nil => exact absurd h (natRepr_ne_nil _)
      | cons d ds => exact ⟨d, ds, rfl⟩
    have hd : isDigitC d = true := mem_natRepr_isDigit v.toNat d (by rw [hds]; simp)
    have hdn := isDigitC_toNat hd
    have hd' : ¬ d = minusC := by
      rw [char_eq_iff_toNat]
      have h45 : minusC.toNat = 45 := by decide
      omega
    unfold intRepr
    rw [if_neg hv, hds, List.cons_append]
    simp only [parseInt]
    rw [if_neg hd', ← List.cons_append, ← hds, parseNat_repr v.toNat rest h1 h2]
    simp only [Option.map_some']
    rw [Int.toNat_of_nonneg (by omega)]

theorem parseValue_int (fuel : Nat) (v : Int) (rest : Str) (cs : Str)
    (hskip : skipWs cs = intRepr v ++ rest)
    (h1 : rest.takeWhile isDigitC = []) (h2 : rest.dropWhile isDigitC = rest) :
    parseValue (fuel + 1) cs = some (.num v, rest) := by
  obtain ⟨d, t, hdt, hd45, hd57, hd⟩ := intRepr_head v
  have hne1 : ¬ d = lbraceC := by
    rw [char_eq_iff_toNat]
    have : lbraceC.toNat = 123 := by decide
    omega
  have hne2 : ¬ d = lbrackC := by
    rw [char_eq_iff_toNat]
    have : lbrackC.toNat = 91 := by decide
    omega
  have hne3 : ¬ d = dquoteC := by
    rw [char_eq_iff_toNat]
    have : dquoteC.toNat = 34 := by decide
    omega
  have hpos : (isDigitC d || d = minusC) = true := by
    rcases hd with h | h
    · simp [h]
    · simp [h]
  simp only [parseValue]
  rw [hskip, hdt, List.cons_append]
  simp only [hne1, if_false, hne2, hne3, hpos, if_true]
  rw [← List.cons_append, ← hdt, parseInt_repr v rest h1 h2]
  rfl

theorem parseStringRest_key (rest : Str) :
    parseStringRest (WATERMARK_FIELD ++ dquoteC :: rest) = some (WATERMARK_FIELD, rest) := by
  have hkey : ∀ c ∈ WATERMARK_FIELD, (fun c => decide (c ≠ dquoteC)) c = true := by decide
  unfold parseStringRest
  rw [dropWhile_append_all hkey, takeWhile_append_all hkey]
  simp +decide [List.dropWhile_cons, List.takeWhile_cons]

theorem parseValue_watermark (fuel : Nat) (v : Int) :
    parseValue (fuel + 3) (update_last_processed_row v) =
      some (.obj [(WATERMARK_FIELD, .num v)], []) := by
  have hskip : skipWs (spaceC :: (intRepr v ++ [rbraceC])) = intRepr v ++ [rbraceC] := by
    obtain ⟨d, t, hdt, hd45, _, _⟩ := intRepr_head v
    have hwsd : isWsC d = false := isWsC_false_of_toNat (by omega)
    rw [hdt, List.cons_append]
    simp +decide [skipWs, List.dropWhile_cons, hwsd]
  have hinner : parseValue (fuel + 1) (spaceC :: (intRepr v ++ [rbraceC]))
      = some (.num v, [rbraceC]) :=
    parseValue_int fuel v [rbraceC] _ hskip (by decide) (by decide)
  have hkey : parseStringRest
      (WATERMARK_FIELD ++ dquoteC :: colonC :: spaceC :: (intRepr v ++ [rbraceC]))
      = some (WATERMARK_FIELD, colonC :: spaceC :: (intRepr v ++ [rbraceC])) :=
    parseStringRest_key _
  have hMem : parseMembers (fuel + 2)
      (dquoteC :: (WATERMARK_FIELD ++ dquoteC :: colonC :: spaceC :: (intRepr v ++ [rbraceC])))
      = some ([(WATERMARK_FIELD, .num v)], []) := by
    simp +decide [parseMembers, skipWs, List.dropWhile_cons, hkey, hinner]
  unfold update_last_processed_row
  simp +decide [parseValue, skipWs, List.dropWhile_cons, hMem]

theorem json_loads_watermark (v : Int) :
    json_loads (update_last_processed_row v) = some (.obj [(WATERMARK_FIELD, .num v)]) := by
  unfold json_loads
  have hlen : (update_last_processed_row v).length + 1
      = (WATERMARK_FIELD ++ dquoteC :: colonC :: spaceC :: (intRepr v ++ [rbraceC])).length
          + 3 := by
    simp [update_last_processed_row]
  rw [hlen, parseValue_watermark]
  simp [skipWs]

theorem load_roundtrip (v : Int) :
    get_last_processed_row true (some (update_last_processed_row v)) = .ok (.num v) := by
  unfold get_last_processed_row
  simp +decide [json_loads_watermark v, lookupLast]

/- ------------------------------------------------------------------ -/
/- Column-name cleaning: charset and underscore-collapsing.            -/
/- ------------------------------------------------------------------ -/

/-- The claimed output charset: lowercase letters, digits, underscore. -/
def isLowerAlnumU (c : Char) : Bool :=
  (97 ≤ c.toNat && c.toNat ≤ 122) || (48 ≤ c.toNat && c.toNat ≤ 57) || c = '_'

/-- No two adjacent underscores anywhere in the string. -/
def noConsecU : Str → Bool
  | [] => true
  | [_] => true
  | a :: b :: t => !(a = '_' && b = '_') && noConsecU (b :: t)

theorem collapseUAux_nil (f : Nat) : collapseUAux f [] = [] := by
  cases f <;> simp [collapseUAux]

theorem collapseUAux_mem {f : Nat} {s : Str} {c : Char} (h : c ∈ collapseUAux f s) :
    c ∈ s := by
  induction f generalizing s with
  | zero => simp [collapseUAux] at h
  | succ f ih =>
      cases s with
      | nil => simp [collapseUAux] at h
      | cons a t =>
          simp only [collapseUAux] at h
          by_cases ha : a = '_'
          · rw [if_pos ha] at h
            rcases List.mem_cons.mp h with h1 | h1
            · simp [h1]
            · exact List.mem_cons_of_mem a (mem_of_mem_dropWhile (ih h1))
          · rw [if_neg ha] at h
            rcases List.mem_cons.mp h with h1 | h1
            · simp [h1]
            · exact List.mem_cons_of_mem a (ih h1)

theorem collapseUAux_head (f : Nat) (a : Char) (t : Str) :
    ∃ u, collapseUAux (f + 1) (a :: t) = a :: u := by
  simp only [collapseUAux]
  by_cases ha : a = '_'
  · exact ⟨_, by rw [if_pos ha]⟩
  · exact ⟨_, by rw [if_neg ha]⟩

theorem noConsecU_collapseUAux :
    ∀ (f : Nat) (s : Str), s.length ≤ f → noConsecU (collapseUAux f s) = true := by
  intro f
  induction f with
  | zero =>
      intro s _
      simp [collapseUAux, noConsecU]
  | succ f ih =>
      intro s hs
      cases s with
      | nil => simp [collapseUAux, noConsecU]
      | cons a t =>
          simp only [collapseUAux]
          by_cases ha : a = '_'
          · rw [if_pos ha]
            have hlen : (t.dropWhile (fun x => decide (x = '_'))).length ≤ f :=
              le_trans (length_dropWhile_le' _ t) (by simpa using hs)
            have hrec := ih _ hlen
            cases hys : t.dropWhile (fun x => decide (x = '_')) with
            | nil =>
                rw [collapseUAux_nil]
                simp [noConsecU]
            | cons y u =>
                have hy : (fun x => decide (x = '_')) y = false :=
                  head_dropWhile_not (fun x => decide (x = '_')) hys
                have hy' : ¬ y = '_' := by simpa using hy
                rw [hys] at hrec
                cases f with
                | zero =>
                    rw [hys] at hlen
                    simp at hlen
                | succ g =>
                    obtain ⟨w, hw⟩ := collapseUAux_head g y u
                    rw [hw]
                    rw [hw] at hrec
                    simp [noConsecU, hy', hrec]
          · rw [if_neg ha]
            have hrec := ih t (by simpa using hs)
            cases ht : collapseUAux f t with
            | nil =>
                simp [noConsecU]
            | cons b u =>
                rw [ht] at hrec
                simp [noConsecU, ha, hrec]

theorem pyLowerChar_not_upper (x : Char) :
    ¬(65 ≤ (pyLowerChar x).toNat ∧ (pyLowerChar x).toNat ≤ 90) := by
  unfold pyLowerChar
  by_cases hx : (65 ≤ x.toNat && x.toNat ≤ 90) = true
  · rw [if_pos hx]
    simp only [Bool.and_eq_true, decide_eq_true_eq] at hx
    rw [toNat_ofNat_valid _ (by omega)]
    omega
  · rw [if_neg hx]
    simp only [Bool.and_eq_true, decide_eq_true_eq] at hx
    omega

theorem clean_column_name_charset (s : Str) :
    ∀ c ∈ clean_column_name s, isLowerAlnumU c = true := by
  intro c hc
  unfold clean_column_name collapseU at hc
  have hmem := collapseUAux_mem hc
  rw [List.mem_map] at hmem
  obtain ⟨x, hx, hfx⟩ := hmem
  rw [List.mem_map] at hx
  obtain ⟨y, _, hy⟩ := hx
  by_cases hw : isWordChar x = true
  · rw [if_pos hw] at hfx
    subst hfx
    have hnu := pyLowerChar_not_upper y
    rw [hy] at hnu
    simp only [isWordChar, Bool.or_eq_true, Bool.and_eq_true, decide_eq_true_eq] at hw
    simp only [isLowerAlnumU, Bool.or_eq_true, Bool.and_eq_true, decide_eq_true_eq]
    rcases hw with ((h | h) | h) | h
    · exact Or.inl (Or.inl h)
    · exact absurd h hnu
    · exact Or.inl (Or.inr h)
    · exact Or.inr h
  · rw [if_neg hw] at hfx
    subst hfx
    simp [isLowerAlnumU]

theorem clean_column_name_noConsec (s : Str) :
    noConsecU (clean_column_name s) = true := by
  unfold clean_column_name collapseU
  exact noConsecU_collapseUAux _ _ (le_refl _)

/- ------------------------------------------------------------------ -/
/- Orchestrator lemmas.                                                -/
/- ------------------------------------------------------------------ -/

theorem length_rows_clean (df : DF) :
    (coerceNumericCols (cleanColumns df)).rows.length = df.rows.length := by
  simp [coerceNumericCols, cleanColumns]

theorem fetch_none_run (env : Env) (h : env.fetch = none) :
    hello_pubsub env = ⟨[], env.blob0, [], [], none⟩ := by
  unfold hello_pubsub
  rw [h]

theorem empty_delta_run (env : Env) (df : DF) (wn : Int)
    (hf : env.fetch = some df) (hne : df.rows.isEmpty = false)
    (hr : env.wmReadOk = true)
    (hw : get_last_processed_row true env.blob0 = .ok (.num wn))
    (hle : (df.rows.length : Int) ≤ wn) :
    hello_pubsub env =
      ⟨[.fetched df.rows.length, .wmLoaded], env.blob0, [], [], none⟩ := by
  unfold hello_pubsub
  rw [hf]
  simp only [hne, Bool.false_eq_true, if_false, hr, hw, length_rows_clean]
  rw [if_neg (by omega)]

theorem run_blob_monotone (e : Env) (w : Int)
    (h : get_last_processed_row true e.blob0 = .ok (.num w)) :
    ∃ w', get_last_processed_row true (hello_pubsub e).blob = .ok (.num w') ∧ w ≤ w' := by
  cases hro : e.wmReadOk with
  | false =>
      have hexn : get_last_processed_row e.wmReadOk e.blob0 = .exn .apiError := by
        rw [hro]
        simp [get_last_processed_row]
      simp only [hello_pubsub, hexn]
      split
      · exact ⟨w, h, le_refl w⟩
      · split
        · exact ⟨w, h, le_refl w⟩
        · exact ⟨w, h, le_refl w⟩
  | true =>
      have hok : get_last_processed_row e.wmReadOk e.blob0 = .ok (.num w) := by
        rw [hro]
        exact h
      simp only [hello_pubsub, hok]
      split
      · exact ⟨w, h, le_refl w⟩
      · split
        · exact ⟨w, h, le_refl w⟩
        · split
          · rename_i hlt
            split
            · split
              · split
                · split
                  · exact ⟨_, load_roundtrip _, by omega⟩
                  · exact ⟨_, load_roundtrip _, by omega⟩
                · exact ⟨_, load_roundtrip _, by omega⟩
              · exact ⟨_, load_roundtrip _, by omega⟩
            · exact ⟨w, h, le_refl w⟩
          · exact ⟨w, h, le_refl w⟩

/- ------------------------------------------------------------------ -/
/- Claim theorems.                                                     -/
/- ------------------------------------------------------------------ -/

/-- Claim C1: for every ordered row sequence and nonnegative watermark `w`,
the extracted delta equals `rows[w:]` when `w < n`, is empty when `w ≥ n`
(so a sheet that shrank below the watermark yields an empty delta, not a
failure), and its length is `max 0 (n - w)`. -/
theorem extract_delta_slice {α : Type} (rows : List α) (w : Int) (hw : 0 ≤ w) :
    (w < (rows.length : Int) → extractDelta rows w = rows.drop w.toNat) ∧
    ((rows.length : Int) ≤ w → extractDelta rows w = []) ∧
    ((extractDelta rows w).length : Int) = max 0 ((rows.length : Int) - w) := by
  unfold extractDelta pySliceFrom
  by_cases hlt : w < (rows.length : Int)
  · rw [if_pos hlt, if_neg (by omega)]
    refine ⟨fun _ => rfl, fun hle => absurd hle (by omega), ?_⟩
    rw [List.length_drop]
    omega
  · rw [if_neg hlt]
    refine ⟨fun h' => absurd h' hlt, fun _ => rfl, ?_⟩
    simp
    omega

/-- Witness for C1 at `rows = [10, 20, 30]`, `w = 1`. -/
theorem extract_delta_slice_witness :
    (0 : Int) ≤ 1 ∧
    (((1 : Int) < ((([10, 20, 30] : List Nat).length : Nat) : Int) →
        extractDelta ([10, 20, 30] : List Nat) 1 = ([10, 20, 30] : List Nat).drop (1 : Int).toNat) ∧
      (((([10, 20, 30] : List Nat).length : Nat) : Int) ≤ 1 →
        extractDelta ([10, 20, 30] : List Nat) 1 = []) ∧
      ((extractDelta ([10, 20, 30] : List Nat) 1).length : Int) =
        max 0 (((([10, 20, 30] : List Nat).length : Nat) : Int) - 1)) :=
  ⟨by norm_num, extract_delta_slice [10, 20, 30] 1 (by norm_num)⟩

/-- Claim C4: the watermark saved by `update_last_processed_row` and read
back by `get_last_processed_row` on a fresh store round-trips exactly: the
record is one JSON object with the single field `last_processed_row`. -/
theorem save_load_roundtrip (v : Int) :
    get_last_processed_row true (some (update_last_processed_row v)) = .ok (.num v) :=
  load_roundtrip v

/-- Claim C5: the load returns 0 when no record exists, and returns 0
(rather than failing) when the record exists but fails to parse as JSON. -/
theorem load_absent_or_corrupt_zero :
    get_last_processed_row true none = .ok (.num 0) ∧
    ∀ s : Str, json_loads s = none → get_last_processed_row true (some s) = .ok (.num 0) := by
  refine ⟨rfl, fun s hs => ?_⟩
  unfold get_last_processed_row
  simp [hs]

/-- Witness for C5 on the unparsable blob content `corrupt`. -/
theorem load_absent_or_corrupt_zero_witness :
    json_loads "corrupt".data = none ∧
      get_last_processed_row true (some "corrupt".data) = .ok (.num 0) :=
  ⟨rfl, load_absent_or_corrupt_zero.2 "corrupt".data rfl⟩

/-- Claim C9: when the sheet fetch fails, the run terminates with no state
mutated: watermark blob untouched, nothing uploaded, no load job, and no
exception escapes. -/
theorem fetch_failure_no_mutation (env : Env) (h : env.fetch = none) :
    hello_pubsub env = ⟨[], env.blob0, [], [], none⟩ :=
  fetch_none_run env h

/-- Witness for C9 on a concrete environment whose sheet fetch raises. -/
theorem fetch_failure_no_mutation_witness :
    (Env.fetch ⟨none, some ['x'], true, true, true, true, true⟩ = none) ∧
      hello_pubsub ⟨none, some ['x'], true, true, true, true, true⟩
        = ⟨[], some ['x'], [], [], none⟩ :=
  ⟨rfl, fetch_failure_no_mutation ⟨none, some ['x'], true, true, true, true, true⟩ rfl⟩

/-- Claim C6: when the delta is empty (`watermark ≥ row count`), the run
terminates with no further side effects: the blob is unchanged, nothing is
uploaded, no load job is submitted, no watermark save occurs, and no
exception escapes. -/
theorem empty_delta_no_side_effects (env : Env) (df : DF) (wn : Int)
    (hf : env.fetch = some df) (hne : df.rows.isEmpty = false)
    (hr : env.wmReadOk = true)
    (hw : get_last_processed_row true env.blob0 = .ok (.num wn))
    (hle : (df.rows.length : Int) ≤ wn) :
    (hello_pubsub env).blob = env.blob0 ∧
    (hello_pubsub env).uploads = [] ∧
    (hello_pubsub env).loadJobs = [] ∧
    (hello_pubsub env).raised = none ∧
    (hello_pubsub env).events.all (fun e => !e.isWmSave && !e.isArtifactStep) = true := by
  rw [empty_delta_run env df wn hf hne hr hw hle]
  exact ⟨rfl, rfl, rfl, rfl, by simp [Event.isWmSave, Event.isArtifactStep]⟩

/-- Witness for C6: one row, watermark already 1. -/
theorem empty_delta_no_side_effects_witness :
    get_last_processed_row true (some (update_last_processed_row 1)) = .ok (.num 1) ∧
      (hello_pubsub ⟨some ⟨[['a']], [[Cell.str ['h']]]⟩,
          some (update_last_processed_row 1), true, true, true, true, true⟩).blob
        = some (update_last_processed_row 1) ∧
      (hello_pubsub ⟨some ⟨[['a']], [[Cell.str ['h']]]⟩,
          some (update_last_processed_row 1), true, true, true, true, true⟩).uploads = [] ∧
      (hello_pubsub ⟨some ⟨[['a']], [[Cell.str ['h']]]⟩,
          some (update_last_processed_row 1), true, true, true, true, true⟩).loadJobs = [] ∧
      (hello_pubsub ⟨some ⟨[['a']], [[Cell.str ['h']]]⟩,
          some (update_last_processed_row 1), true, true, true, true, true⟩).raised = none := by
  have hth := empty_delta_no_side_effects
    ⟨some ⟨[['a']], [[Cell.str ['h']]]⟩, some (update_last_processed_row 1), true, true, true, true, true⟩
    ⟨[['a']], [[Cell.str ['h']]]⟩ 1 rfl rfl rfl rfl (by norm_num)
  exact ⟨rfl, hth.1, hth.2.1, hth.2.2.1, hth.2.2.2.1⟩

/-- Claim C2: in every run that extracts a non-empty delta, the watermark
write (value = current full row count) happens strictly before any
artifact step (local serialize, upload, load submit): no event before the
first watermark save is an artifact step, and every saved value equals the
full row count. -/
theorem watermark_saved_before_artifact (env : Env) (df : DF) (wn : Int)
    (hf : env.fetch = some df) (hne : df.rows.isEmpty = false)
    (hr : env.wmReadOk = true)
    (hw : get_last_processed_row true env.blob0 = .ok (.num wn))
    (hgt : wn < (df.rows.length : Int)) :
    (((hello_pubsub env).events.takeWhile (fun e => !e.isWmSave)).all
        (fun e => !e.isArtifactStep) = true) ∧
    ∀ m : Int, Event.wmSaved m ∈ (hello_pubsub env).events → m = (df.rows.length : Int) := by
  unfold hello_pubsub
  rw [hf]
  simp only [hne, Bool.false_eq_true, if_false, hr, hw, length_rows_clean]
  rw [if_pos hgt]
  split
  · split
    · split
      · split
        · exact ⟨by simp [Event.isWmSave, Event.isArtifactStep],
            fun m hm => by simpa using hm⟩
        · exact ⟨by simp [Event.isWmSave, Event.isArtifactStep],
            fun m hm => by simpa using hm⟩
      · exact ⟨by simp [Event.isWmSave, Event.isArtifactStep],
          fun m hm => by simpa using hm⟩
    · exact ⟨by simp [Event.isWmSave, Event.isArtifactStep],
        fun m hm => by simpa using hm⟩
  · exact ⟨by simp [Event.isWmSave, Event.isArtifactStep],
      fun m hm => absurd hm (by simp)⟩

/-- Witness for C2: one fresh row, no prior watermark, all calls succeed. -/
theorem watermark_saved_before_artifact_witness :
    get_last_processed_row true none = .ok (.num 0) ∧
      (0 : Int) < ((([[Cell.str ['h']]] : List (List Cell)).length : Nat) : Int) ∧
      (((hello_pubsub ⟨some ⟨[['a']], [[Cell.str ['h']]]⟩,
            none, true, true, true, true, true⟩).events.takeWhile
          (fun e => !e.isWmSave)).all (fun e => !e.isArtifactStep) = true) :=
  ⟨rfl, by norm_num,
    (watermark_saved_before_artifact
      ⟨some ⟨[['a']], [[Cell.str ['h']]]⟩, none, true, true, true, true, true⟩
      ⟨[['a']], [[Cell.str ['h']]]⟩ 0 rfl rfl rfl rfl (by norm_num)).1⟩

/-- Claim C3: across any chain of runs threading the watermark blob
(single writer), the loaded watermark never decreases: if the initial blob
loads as integer `w`, the blob after any sequence of runs loads as some
integer `w' ≥ w`. -/
theorem watermark_monotone_chain (blob : Option Str) (es : List Env) (w : Int)
    (h : get_last_processed_row true blob = .ok (.num w)) :
    ∃ w', get_last_processed_row true (runChain blob es) = .ok (.num w') ∧ w ≤ w' := by
  induction es generalizing blob w with
  | nil => exact ⟨w, h, le_refl w⟩
  | cons e es ih =>
      obtain ⟨w1, h1, hw1⟩ := run_blob_monotone (e.withBlob blob) w h
      obtain ⟨w', h', hw'⟩ := ih _ _ h1
      exact ⟨w', h', le_trans hw1 hw'⟩

/-- Witness for C3: a fresh store followed by one fully successful run. -/
theorem watermark_monotone_chain_witness :
    get_last_processed_row true none = .ok (.num 0) ∧
      ∃ w', get_last_processed_row true
          (runChain none [⟨some ⟨[['a']], [[Cell.str ['h']]]⟩,
            none, true, true, true, true, true⟩]) = .ok (.num w') ∧ (0 : Int) ≤ w' :=
  ⟨rfl, watermark_monotone_chain none
    [⟨some ⟨[['a']], [[Cell.str ['h']]]⟩, none, true, true, true, true, true⟩] 0 rfl⟩

/-- Counterexample to C7 as stated: with one new row and a failing
watermark write (line 99 sits outside every `try` block), the exception
escapes `hello_pubsub` instead of being caught. -/
theorem exception_escape_counterexample :
    (hello_pubsub ⟨some ⟨[['a']], [[Cell.str ['h']]]⟩,
        none, true, false, true, true, true⟩).raised = some .apiError := rfl

/-- Claim C7 (amended): failures of the sheet fetch, the local parquet
write, the artifact upload and the warehouse load are all caught inside
the handler; but only when the watermark read succeeds with an integer
value and the watermark write succeeds does no exception escape — the
watermark read and write sit outside every `try` block. -/
theorem caught_failures_amended (env : Env) (wn : Int)
    (hr : env.wmReadOk = true)
    (hw : get_last_processed_row true env.blob0 = .ok (.num wn))
    (hwr : env.wmWriteOk = true) :
    (hello_pubsub env).raised = none := by
  have hok : get_last_processed_row env.wmReadOk env.blob0 = .ok (.num wn) := by
    rw [hr]
    exact hw
  simp only [hello_pubsub, hok, hwr, eq_self_iff_true, if_true]
  repeat' split
  all_goals rfl

/-- Witness for C7 (amended): the upload fails, yet nothing escapes. -/
theorem caught_failures_amended_witness :
    get_last_processed_row true none = .ok (.num 0) ∧
      (hello_pubsub ⟨some ⟨[['a']], [[Cell.str ['h']]]⟩,
          none, true, true, true, false, true⟩).raised = none :=
  ⟨rfl, caught_failures_amended
    ⟨some ⟨[['a']], [[Cell.str ['h']]]⟩, none, true, true, true, false, true⟩ 0 rfl rfl rfl⟩

/-- Claim C8: `clean_column_name` outputs only lowercase letters, digits
and underscores, with no two consecutive underscores, and it is applied to
every column name of the dataframe. -/
theorem clean_column_name_spec (s : Str) (df : DF) :
    (clean_column_name s).all isLowerAlnumU = true ∧
    noConsecU (clean_column_name s) = true ∧
    (cleanColumns df).cols = df.cols.map clean_column_name := by
  refine ⟨?_, clean_column_name_noConsec s, rfl⟩
  rw [List.all_eq_true]
  exact fun c hc => clean_column_name_charset s c hc

/-- Counterexample to C10 as stated: the blob content `5` is valid JSON
without the field `last_processed_row`, yet the load raises
`AttributeError` (`.get` on a non-dict, not caught) instead of
returning 0. -/
theorem load_nonobject_counterexample :
    json_loads ['5'] = some (.num 5) ∧
      get_last_processed_row true (some ['5']) = .exn .attributeError :=
  ⟨rfl, rfl⟩

/-- Claim C10 (amended): when the blob parses as a JSON object that lacks
the field `last_processed_row`, the load returns the default 0; a valid
non-object JSON value instead raises an uncaught `AttributeError`. -/
theorem load_missing_field_amended (s : Str) (kvs : List (Str × Json))
    (h1 : json_loads s = some (.obj kvs)) (h2 : lookupLast kvs WATERMARK_FIELD = none) :
    get_last_processed_row true (some s) = .ok (.num 0) := by
  unfold get_last_processed_row
  simp [h1, h2]

/-- Witness for C10 (amended) on the empty JSON object. -/
theorem load_missing_field_amended_witness :
    json_loads [lbraceC, rbraceC] = some (.obj []) ∧
      lookupLast [] WATERMARK_FIELD = none ∧
      get_last_processed_row true (some [lbraceC, rbraceC]) = .ok (.num 0) :=
  ⟨rfl, rfl, load_missing_field_amended [lbraceC, rbraceC] [] rfl rfl⟩
